import Mathlib

/-!
A shallow embedding of the RSA chat program (src/RSA.py) and proofs about it.

Modelling conventions:
* Python arbitrary-precision integers are `Nat` (all integers handled by the
  program's crypto and framing paths are nonnegative); where Python's `%` on
  possibly-negative intermediate values matters (the extended Euclid), `Int`
  with Lean's `%` (`Int.emod`) is used, which agrees with Python's `%` for a
  positive modulus.
* Python strings are sequences of code points, modelled as `List Nat`
  (`PyStr`); the byte strings on the wire are also `List Nat`.  All payloads
  the program sends are ASCII (decimal digits, `KEYS:` lines and
  `json.dumps` output with its default `ensure_ascii=True`), so the UTF-8
  encoding in `send_data` is the identity on code points and the byte length
  equals the character count.
* `random.getrandbits` / `random.randrange` are modelled by an infinite draw
  stream `rand : Nat → Nat` consumed at an explicit index; a draw `v` yields
  `v % 2^k` for `getrandbits(k)` and `lo + v % (hi - lo)` for
  `randrange(lo, hi)`, so results always lie in the library's contracted
  range.
* Unbounded `while True` loops carry explicit fuel and return `none` when it
  runs out; `none` never stands for a Python value, only for running longer
  than the fuel allows.
* Python exceptions are `Except PyError`; SHA-256 (`hashlib`, an external
  library) is abstracted as a parameter `hashInt : PyStr → Nat` standing for
  `int(hashlib.sha256(message.encode()).hexdigest(), 16)`.
* `json.loads` (external library) is abstracted as a parameter
  `jsonLoads : PyStr → Option EnvelopeData` giving the successfully parsed
  envelope fields, `none` standing for `json.JSONDecodeError`; integer
  fields are restricted to the nonnegative integers the program itself
  produces. GUI calls (`update_chat`, entry widgets) are modelled as emitted
  `Out.chatLine` events naming the branch that ran.
-/

namespace RSAChat

/-- Python strings (sequences of code points) and ASCII byte strings. -/
abbrev PyStr := List Nat

/-- Dataclass `PublicKey` (src/RSA.py lines 15-18). -/
structure PublicKey where
  N : Nat
  E : Nat
  deriving DecidableEq

/-- Dataclass `PrivateKey` (lines 21-23). -/
structure PrivateKey where
  D : Nat
  deriving DecidableEq

/-- Dataclass `RSAKeyPair` (lines 26-29). -/
structure RSAKeyPair where
  public_key : PublicKey
  private_key : PrivateKey
  deriving DecidableEq

/-- The Python exceptions the embedded fragments can raise. -/
inductive PyError where
  /-- Models `Exception('Key pair not generated')` in `decrypt`/`sign`. -/
  | keyPairNotGenerated
  /-- Models `Exception('Modular inverse does not exist')` in `modinv`. -/
  | modularInverseMissing
  /-- Models the `ValueError` from `chr()` on an argument outside `range(0x110000)`. -/
  | chrValueError
  /-- Models the `AttributeError` from reading `.E`/`.N` of `None`. -/
  | attributeNone
  deriving DecidableEq

/-- Fuel-indexed Euclidean loop of `RSA.gcd` (lines 61-66):
`while b != 0: a, b = b, a % b`. -/
def gcdLoop : Nat → Nat → Nat → Nat
  | 0, a, _ => a
  | fuel + 1, a, b => if b = 0 then a else gcdLoop fuel b (a % b)

/-- Embeds `RSA.gcd` (lines 61-66).  `b + 1` fuel always suffices because the second
argument strictly decreases. -/
def gcd (a b : Nat) : Nat := gcdLoop (b + 1) a b

/-- Embeds `RSA.lcm` (lines 68-71): `abs(a * b) // gcd(a, b)`; on `Nat` the `abs`
is the identity. -/
def lcm (a b : Nat) : Nat := a * b / gcd a b

/-- Fuel-indexed loop of `RSA.xgcd` (lines 73-83); the Bezout coefficients
can go negative, hence `Int`. -/
def xgcdLoop : Nat → Nat → Nat → Int → Int → Int → Int → Nat × Int × Int
  | 0, a, _, prevx, _, prevy, _ => (a, prevx, prevy)
  | fuel + 1, a, b, prevx, x, prevy, y =>
    if b = 0 then (a, prevx, prevy)
    else xgcdLoop fuel b (a % b) x (prevx - ((a / b : Nat) : Int) * x) y (prevy - ((a / b : Nat) : Int) * y)

/-- Embeds `RSA.xgcd` (lines 73-83): starts from `prevx, x = 1, 0`, `prevy, y = 0, 1`. -/
def xgcd (a b : Nat) : Nat × Int × Int := xgcdLoop (b + 1) a b 1 0 0 1

/-- Embeds `RSA.modinv` (lines 85-92).  Python's `x % m` for positive `m` is Lean's
`Int` `%` (both return a value in `[0, m)`). -/
def modinv (a m : Nat) : Except PyError Nat :=
  let r := xgcd a m
  if r.1 ≠ 1 then .error .modularInverseMissing
  else .ok (r.2.1 % (m : Int)).toNat

/-- Models `random.randrange(lo, hi)`: the draw `v` is reduced into `[lo, hi)`. -/
def pyRandrange (lo hi v : Nat) : Nat := lo + v % (hi - lo)

/-- Models `random.getrandbits(k)`: the draw `v` is reduced into `[0, 2^k)`. -/
def pyGetrandbits (k v : Nat) : Nat := v % 2 ^ k

/-- The `while r % 2 == 0` loop of `is_prime` (lines 101-104), writing
`r = 2^s * r'` with `r'` odd; fuel `r` suffices for any `r ≥ 1` (the
program only reaches it with `r = n - 1 ≥ 4`). -/
def splitTwos : Nat → Nat → Nat × Nat
  | 0, r => (0, r)
  | fuel + 1, r =>
    if r % 2 = 0 then
      let p := splitTwos fuel (r / 2)
      (p.1 + 1, p.2)
    else (0, r)

/-- The inner `for __ in range(s - 1)` squaring loop of `is_prime`
(lines 109-112): returns `true` iff some square equals `n - 1` (the `break`
that avoids the `for`-`else` `return False`). -/
def mrSquares (n : Nat) : Nat → Nat → Bool
  | 0, _ => false
  | count + 1, x =>
    let x' := x ^ 2 % n
    if x' = n - 1 then true else mrSquares n count x'

/-- The outer `for _ in range(k)` rounds of `is_prime` (lines 105-114);
each executed round consumes one draw (its random base `a`); returns the
verdict and the next draw index. -/
def mrRounds (n r s : Nat) (rand : Nat → Nat) : Nat → Nat → Bool × Nat
  | 0, i => (true, i)
  | k + 1, i =>
    let a := pyRandrange 2 (n - 1) (rand i)
    let x := a ^ r % n
    if x = 1 ∨ x = n - 1 then mrRounds n r s rand k (i + 1)
    else if mrSquares n (s - 1) x then mrRounds n r s rand k (i + 1)
    else (false, i + 1)

/-- Embeds `RSA.is_prime` (lines 94-115), Miller-Rabin with `k` random bases. -/
def is_prime (n k : Nat) (rand : Nat → Nat) (i : Nat) : Bool × Nat :=
  if n = 2 ∨ n = 3 then (true, i)
  else if n ≤ 1 ∨ n % 2 = 0 then (false, i)
  else
    let sr := splitTwos (n - 1) (n - 1)
    mrRounds n sr.2 sr.1 rand k i

/-- Embeds `RSA.generate_prime_number` (lines 117-123): candidates are
`getrandbits(length)` with the top and bottom bits forced
(`p |= (1 << length - 1) | 1`), filtered by `is_prime` with its default
`k = 128`. -/
def generate_prime_number (length : Nat) : Nat → (Nat → Nat) → Nat → Option (Nat × Nat)
  | 0, _, _ => none
  | fuel + 1, rand, i =>
    let p := pyGetrandbits length (rand i) ||| ((1 <<< (length - 1)) ||| 1)
    match is_prime p 128 rand (i + 1) with
    | (true, i') => some (p, i')
    | (false, i') => generate_prime_number length fuel rand i'

/-- The inner `while True` of `generate_keys` (lines 50-53) that samples a
public exponent `e` in `[2^16, 2^17)` until `gcd(e, totient) == 1`. -/
def pickE (totient : Nat) : Nat → (Nat → Nat) → Nat → Option (Nat × Nat)
  | 0, _, _ => none
  | fuel + 1, rand, i =>
    let e := pyRandrange (2 ^ 16) (2 ^ 17) (rand i)
    if gcd e totient = 1 then some (e, i + 1)
    else pickE totient fuel rand (i + 1)

/-- Embeds `RSA.generate_keys` (lines 41-59).  Outcomes: `none` means the fuel ran
out; `some (.error e)` a raised exception; `some (.ok (kp, i))` the stored
key pair and the next draw index. -/
def generate_keys (key_length : Nat) : Nat → (Nat → Nat) → Nat → Option (Except PyError (RSAKeyPair × Nat))
  | 0, _, _ => none
  | fuel + 1, rand, i =>
    match generate_prime_number (key_length / 2) (fuel + 1) rand i with
    | none => none
    | some (p, i1) =>
      match generate_prime_number (key_length / 2) (fuel + 1) rand i1 with
      | none => none
      | some (q, i2) =>
        if p ≠ q then
          let n := p * q
          let totient := lcm (p - 1) (q - 1)
          match pickE totient (fuel + 1) rand i2 with
          | none => none
          | some (e, i3) =>
            match modinv e totient with
            | .error err => some (.error err)
            | .ok d => some (.ok (⟨⟨n, e⟩, ⟨d⟩⟩, i3))
        else generate_keys key_length fuel rand i2

/-- Embeds `RSA.encrypt` (lines 125-127): `[pow(ord(char), E, N) for char in message]`. -/
def encrypt (message : PyStr) (public_key : PublicKey) : List Nat :=
  message.map fun m => m ^ public_key.E % public_key.N

/-- Python `chr`: valid for code points in `range(0x110000)`, otherwise
`ValueError`. -/
def pyChr (c : Nat) : Except PyError Nat :=
  if c < 0x110000 then .ok c else .error .chrValueError

/-- The list comprehension plus `join` of `decrypt` (lines 133-134),
evaluated left to right; the first failing `chr` raises. -/
def decryptChars (D N : Nat) : List Nat → Except PyError PyStr
  | [] => .ok []
  | c :: cs =>
    match pyChr (c ^ D % N) with
    | .error e => .error e
    | .ok ch =>
      match decryptChars D N cs with
      | .error e => .error e
      | .ok rest => .ok (ch :: rest)

/-- Embeds `RSA.decrypt` (lines 129-134); the argument is the instance's
`self.key_pair`. -/
def decrypt (key_pair : Option RSAKeyPair) (encrypted_message : List Nat) : Except PyError PyStr :=
  match key_pair with
  | none => .error .keyPairNotGenerated
  | some kp => decryptChars kp.private_key.D kp.public_key.N encrypted_message

/-- Embeds `RSA.sign` (lines 141-146); `hashInt` abstracts
`int(create_hash(message), 16)`. -/
def sign (hashInt : PyStr → Nat) (key_pair : Option RSAKeyPair) (message : PyStr) : Except PyError Nat :=
  match key_pair with
  | none => .error .keyPairNotGenerated
  | some kp => .ok (hashInt message ^ kp.private_key.D % kp.public_key.N)

/-- Embeds `RSA.verify` (lines 148-152). -/
def verify (hashInt : PyStr → Nat) (message : PyStr) (signature : Nat) (public_key : PublicKey) : Bool :=
  hashInt message == signature ^ public_key.E % public_key.N

/-- Embeds `verify` as called from `handle_received_message` with
`self.other_public_key`, which may be `None` (then reading `.E` raises
`AttributeError`). -/
def verifyOpt (hashInt : PyStr → Nat) (message : PyStr) (signature : Nat) :
    Option PublicKey → Except PyError Bool
  | none => .error .attributeNone
  | some pk => .ok (verify hashInt message signature pk)

/-- Little-endian decimal digits with fuel (`fuel ≥ n` suffices). -/
def natDigitsAux : Nat → Nat → List Nat
  | 0, _ => []
  | fuel + 1, n => if n = 0 then [] else n % 10 :: natDigitsAux fuel (n / 10)

/-- Big-endian decimal digit values of `n`, as in Python's `str(n)`. -/
def decDigits (n : Nat) : List Nat :=
  if n = 0 then [0] else (natDigitsAux n n).reverse

/-- ASCII bytes of `str(n)`. -/
def decDigitBytes (n : Nat) : List Nat := (decDigits n).map (· + 48)

/-- The header `f"{n:<10}"` of `send_data` (line 376): decimal digits
left-justified, padded with spaces to width 10. -/
def headerBytes (n : Nat) : List Nat :=
  decDigitBytes n ++ List.replicate (10 - (decDigitBytes n).length) 32

/-- The framing applied by `send_data` (lines 372-382): header then body. -/
def encode_frame (body : List Nat) : List Nat := headerBytes body.length ++ body

/-- ASCII space test for `int()`'s whitespace stripping. -/
def isSpaceByte (b : Nat) : Bool := b == 32

/-- ASCII decimal digit test. -/
def isDigitByte (b : Nat) : Bool := 48 ≤ b && b ≤ 57

/-- Strip leading and trailing spaces (the only whitespace occurring in the
program's headers). -/
def trimSpaces (bs : List Nat) : List Nat :=
  ((bs.dropWhile isSpaceByte).reverse.dropWhile isSpaceByte).reverse

/-- Python `int()` on an ASCII byte string: strips surrounding whitespace,
then requires a nonempty digit string; `none` models `ValueError`. -/
def pyIntBytes (bs : List Nat) : Option Nat :=
  let t := trimSpaces bs
  if t ≠ [] ∧ t.all isDigitByte then
    some (t.foldl (fun acc b => 10 * acc + (b - 48)) 0)
  else none

/-- The mutable locals of the receive loop `listen_for_messages`
(lines 351-370): `full_message`, `new_msg`, `msg_length`. -/
structure DecState where
  full_message : List Nat
  new_msg : Bool
  msg_length : Nat
  deriving DecidableEq

/-- The loop state at the top of the inner `while True`. -/
def initDec : DecState := ⟨[], true, 0⟩

/-- One iteration of the inner `while True` of `listen_for_messages` on one
`recv` chunk: parse the header from the chunk's first 10 bytes when a new
message starts, append the chunk, and dispatch the body when the exact
length test `len(full_message) - 10 == msg_length` fires.  `none` models
the uncaught `int()` `ValueError` that breaks the outer loop. -/
def feedChunk (st : DecState) (chunk : List Nat) : Option (DecState × Option (List Nat)) :=
  match if st.new_msg then pyIntBytes (chunk.take 10) else some st.msg_length with
  | none => none
  | some len =>
    let full := st.full_message ++ chunk
    if full.length = 10 + len then some (⟨[], true, len⟩, some (full.drop 10))
    else some (⟨full, false, len⟩, none)

/-- Run the receive loop over a sequence of transport chunks, collecting the
dispatched bodies; processing stops where the Python loop would break. -/
def decodeChunks (st : DecState) : List (List Nat) → List (List Nat)
  | [] => []
  | c :: cs =>
    match feedChunk st c with
    | none => []
    | some (st', none) => decodeChunks st' cs
    | some (st', some body) => body :: decodeChunks st' cs

/-- The session state of `ChatApp` relevant to the protocol (lines 160-179):
`self.rsa.key_pair`, `self.other_public_key`, `self.is_client`, and whether
`self.client_socket` is set. -/
structure ChatState where
  key_pair : Option RSAKeyPair
  other_public_key : Option PublicKey
  is_client : Bool
  client_socket : Bool
  deriving DecidableEq

/-- The `update_chat` call sites reachable from the modelled paths, by
source line. -/
inductive ChatNote where
  /-- Chat line "Received public key." (line 413). -/
  | receivedPublicKey
  /-- Chat line "Public key error: ..." (line 417). -/
  | publicKeyError
  /-- Chat line "Public key sent." (line 441). -/
  | publicKeySent
  /-- Chat line "Cannot send public key; ..." (line 443). -/
  | cannotSendPublicKey
  /-- Chat line "Not connected to any client or server." (line 382). -/
  | notConnected
  /-- Chat line "Encryption keys not exchanged." (line 402). -/
  | encryptionKeysNotExchanged
  /-- Chat line "You: ..." (line 399). -/
  | youSent
  /-- Chat line "nickname: decrypted message" (line 426). -/
  | chatMessage (nickname : PyStr) (text : PyStr)
  /-- Chat line "Signature verification failed." (line 428). -/
  | signatureVerificationFailed
  /-- Chat line "Message handling error: ..." (line 432). -/
  | messageHandlingError
  /-- Chat line "JSON decoding error: ..." (line 430). -/
  | jsonDecodingError
  deriving DecidableEq

/-- Observable effects of the protocol paths: bytes written to the socket,
and GUI chat lines. -/
inductive Out where
  | transportWrite (bytes : List Nat)
  | chatLine (note : ChatNote)
  deriving DecidableEq

/-- Whether an effect is a transport write. -/
def Out.isWrite : Out → Bool
  | .transportWrite _ => true
  | .chatLine _ => false

/-- Embeds `ChatApp.send_data` (lines 372-382): frame and send when connected,
otherwise only a chat notice.  Never mutates the session state. -/
def send_data (st : ChatState) (data : PyStr) : List Out :=
  if st.client_socket then [.transportWrite (encode_frame data)]
  else [.chatLine .notConnected]

/-- The bytes of `"KEYS:"`. -/
def keysTag : PyStr := [75, 69, 89, 83, 58]

/-- The handshake line `f"KEYS:{N},{E}"` built by `send_public_key`
(line 439). -/
def keysMessage (N E : Nat) : PyStr :=
  keysTag ++ decDigitBytes N ++ 44 :: decDigitBytes E

/-- Embeds `ChatApp.send_public_key` (lines 434-443). -/
def send_public_key (st : ChatState) : List Out :=
  match st.client_socket, st.key_pair with
  | true, some kp =>
    send_data st (keysMessage kp.public_key.N kp.public_key.E) ++ [.chatLine .publicKeySent]
  | _, _ => [.chatLine .cannotSendPublicKey]

/-- Python `str.split(sep, 1)`: `none` when `sep` does not occur (so that
two-variable unpacking raises `ValueError`). -/
def splitFirst (sep : Nat) : List Nat → Option (List Nat × List Nat)
  | [] => none
  | c :: cs =>
    if c = sep then some ([], cs)
    else
      match splitFirst sep cs with
      | none => none
      | some (l, r) => some (c :: l, r)

/-- The `KEYS:` branch of `ChatApp.handle_received_message` (lines 406-417):
split off the tag at the first `':'` (58), split `N` from `E` at the first
`','` (44), parse both with `int`, store the peer key, and, when the local
role is not client, answer with `send_public_key`.  Any `ValueError` is
caught and reported (line 417). -/
def handleKeys (st : ChatState) (message : PyStr) : ChatState × List Out :=
  match splitFirst 58 message with
  | none => (st, [.chatLine .publicKeyError])
  | some (_, key_data) =>
    match splitFirst 44 key_data with
    | none => (st, [.chatLine .publicKeyError])
    | some (nStr, eStr) =>
      match pyIntBytes nStr, pyIntBytes eStr with
      | some n, some e =>
        let st' := { st with other_public_key := some ⟨n, e⟩ }
        if st'.is_client then (st', [.chatLine .receivedPublicKey])
        else (st', .chatLine .receivedPublicKey :: send_public_key st')
      | _, _ => (st, [.chatLine .publicKeyError])

/-- The fields extracted from a successfully `json.loads`-parsed envelope
(lines 420-423): `received_data["message"]`, `received_data["signature"]`,
and `received_data.get("nickname", "Unknown")` (`none` = key absent). -/
structure EnvelopeData where
  nickname : Option PyStr
  message : List Nat
  signature : Nat
  deriving DecidableEq

/-- The bytes of `"Unknown"`. -/
def unknownName : PyStr := [85, 110, 107, 110, 111, 119, 110]

/-- The envelope branch of `ChatApp.handle_received_message`
(lines 419-432) after a successful `json.loads`: decrypt with the local key
pair, verify against `self.other_public_key`; any exception is caught and
reported as "Message handling error" (line 432). -/
def handleEnvelope (hashInt : PyStr → Nat) (st : ChatState) (env : EnvelopeData) :
    ChatState × List Out :=
  match decrypt st.key_pair env.message with
  | .error _ => (st, [.chatLine .messageHandlingError])
  | .ok decrypted_message =>
    match verifyOpt hashInt decrypted_message env.signature st.other_public_key with
    | .error _ => (st, [.chatLine .messageHandlingError])
    | .ok true => (st, [.chatLine (.chatMessage (env.nickname.getD unknownName) decrypted_message)])
    | .ok false => (st, [.chatLine .signatureVerificationFailed])

/-- Embeds `ChatApp.handle_received_message` (lines 404-432): dispatch on the
`"KEYS:"` prefix; otherwise `json.loads` (abstracted by `jsonLoads`) and
the envelope branch. -/
def handle_received_message (hashInt : PyStr → Nat) (jsonLoads : PyStr → Option EnvelopeData)
    (st : ChatState) (message : PyStr) : ChatState × List Out :=
  if message.take 5 = keysTag then handleKeys st message
  else
    match jsonLoads message with
    | none => (st, [.chatLine .jsonDecodingError])
    | some env => handleEnvelope hashInt st env

/-- Sequential processing of several parsed envelopes by the receive loop
(each `handle_received_message` call returns normally because its `except`
blocks catch the errors, so the loop goes on). -/
def handleEnvelopes (hashInt : PyStr → Nat) (st : ChatState) :
    List EnvelopeData → ChatState × List Out
  | [] => (st, [])
  | env :: rest =>
    let r1 := handleEnvelope hashInt st env
    let r2 := handleEnvelopes hashInt r1.1 rest
    (r2.1, r1.2 ++ r2.2)

/-- The bytes of `"Anonymous"`. -/
def anonymous : PyStr := [65, 110, 111, 110, 121, 109, 111, 117, 115]

/-- The bytes of `"nickname"`. -/
def nicknameKey : PyStr := [110, 105, 99, 107, 110, 97, 109, 101]

/-- The bytes of `"message"`. -/
def messageKey : PyStr := [109, 101, 115, 115, 97, 103, 101]

/-- The bytes of `"signature"`. -/
def signatureKey : PyStr := [115, 105, 103, 110, 97, 116, 117, 114, 101]

/-- Models `json.dumps` of an integer list with the default separators. -/
def jsonList : List Nat → PyStr
  | [] => [91, 93]
  | c :: cs => 91 :: (decDigitBytes c ++ cs.foldr (fun d acc => 44 :: 32 :: (decDigitBytes d ++ acc)) [93])

/-- Models `json.dumps` of the message dict of `send_message` (lines 393-397),
with the default separators; assumes the nickname needs no JSON escaping. -/
def jsonDumpsEnvelope (nickname : PyStr) (message : List Nat) (signature : Nat) : PyStr :=
  [123, 34] ++ nicknameKey ++ [34, 58, 32, 34] ++ nickname ++ [34, 44, 32, 34] ++ messageKey
    ++ [34, 58, 32] ++ jsonList message ++ [44, 32, 34] ++ signatureKey ++ [34, 58, 32]
    ++ decDigitBytes signature ++ [125]

/-- Embeds `ChatApp.send_message` (lines 386-402): requires both the peer public
key and the local key pair (`if self.other_public_key and self.rsa.key_pair`),
then signs, encrypts, serializes and sends; otherwise only the
"Encryption keys not exchanged." notice. -/
def send_message (hashInt : PyStr → Nat) (st : ChatState) (message : PyStr)
    (nicknameEntry : PyStr) : ChatState × List Out :=
  match st.other_public_key, st.key_pair with
  | some opk, some _ =>
    match sign hashInt st.key_pair message with
    | .error _ => (st, [])
    | .ok signature =>
      let encrypted_message := encrypt message opk
      let nickname := if nicknameEntry = [] then anonymous else nicknameEntry
      (st, send_data st (jsonDumpsEnvelope nickname encrypted_message signature) ++ [.chatLine .youSent])
  | _, _ => (st, [.chatLine .encryptionKeysNotExchanged])

/-- Decidable equality for `Except`, for evaluating concrete
`generate_keys` runs. -/
instance instDecEqExcept {ε α : Type} [DecidableEq ε] [DecidableEq α] : DecidableEq (Except ε α)
  | Except.error a, Except.error b =>
    if h : a = b then isTrue (congrArg Except.error h)
    else isFalse fun hh => h (Except.error.inj hh)
  | Except.error _, Except.ok _ => isFalse fun hh => Except.noConfusion hh
  | Except.ok _, Except.error _ => isFalse fun hh => Except.noConfusion hh
  | Except.ok a, Except.ok b =>
    if h : a = b then isTrue (congrArg Except.ok h)
    else isFalse fun hh => h (Except.ok.inj hh)

/-- A concrete draw stream under which `generate_prime_number 11` returns
the prime 1039 at the first attempt (candidate draw 1039, then 128
Miller-Rabin base draws). -/
def randC9 : Nat → Nat := fun i => if i = 0 then 1039 else 0

/-- A concrete draw stream under which `generate_keys 22` finds the primes
1039 and 1151 and the exponent 65537. -/
def randC3w : Nat → Nat :=
  fun i => if i = 0 then 1039 else if i = 129 then 1151 else if i = 258 then 1 else 0

/-- A concrete draw stream under which every Miller-Rabin base drawn for
the first candidate is 2, so the composite 2047 = 23 * 89 (a well-known
strong pseudoprime to base 2) is accepted as `p`. -/
def randC3cex : Nat → Nat :=
  fun i => if i = 0 then 2047 else if i = 129 then 1039 else if i = 258 then 1 else 0

/-! ## Arithmetic lemmas: the source's gcd / lcm / extended Euclid -/

theorem gcdLoop_eq (fuel : Nat) : ∀ a b : Nat, b ≤ fuel → gcdLoop fuel a b = Nat.gcd b a := by
  induction fuel with
  | zero =>
    intro a b hb
    interval_cases b
    simp [gcdLoop]
  | succ fuel ih =>
    intro a b hb
    by_cases h : b = 0
    · subst h; simp [gcdLoop]
    · have hlt : a % b < b := Nat.mod_lt a (Nat.pos_of_ne_zero h)
      rw [gcdLoop, if_neg h, ih b (a % b) (by omega), Nat.gcd_rec b a]

theorem gcd_eq (a b : Nat) : gcd a b = Nat.gcd a b := by
  rw [gcd, gcdLoop_eq (b + 1) a b (Nat.le_succ b), Nat.gcd_comm]

theorem lcm_eq (a b : Nat) : lcm a b = Nat.lcm a b := by
  rw [lcm, gcd_eq, Nat.lcm]

theorem xgcdLoop_spec (fuel : Nat) :
    ∀ (a b : Nat) (px x py y : Int) (A B : Nat), b ≤ fuel →
      (A : Int) * px + (B : Int) * py = (a : Int) →
      (A : Int) * x + (B : Int) * y = (b : Int) →
      (xgcdLoop fuel a b px x py y).1 = Nat.gcd b a ∧
      (A : Int) * (xgcdLoop fuel a b px x py y).2.1 +
        (B : Int) * (xgcdLoop fuel a b px x py y).2.2 =
        ((xgcdLoop fuel a b px x py y).1 : Int) := by
  induction fuel with
  | zero =>
    intro a b px x py y A B hb h1 h2
    interval_cases b
    exact ⟨(Nat.gcd_zero_left a).symm, by simpa [xgcdLoop] using h1⟩
  | succ fuel ih =>
    intro a b px x py y A B hb h1 h2
    by_cases h : b = 0
    · subst h
      exact ⟨by simp [xgcdLoop, Nat.gcd_zero_left], by simpa [xgcdLoop] using h1⟩
    · have hlt : a % b < b := Nat.mod_lt a (Nat.pos_of_ne_zero h)
      have h2' : (A : Int) * (px - ((a / b : Nat) : Int) * x) +
          (B : Int) * (py - ((a / b : Nat) : Int) * y) = ((a % b : Nat) : Int) := by
        have hdm : b * (a / b) + a % b = a := Nat.div_add_mod a b
        have hdmz : (b : Int) * ((a / b : Nat) : Int) + ((a % b : Nat) : Int) = (a : Int) := by
          exact_mod_cast hdm
        linear_combination h1 - ((a / b : Nat) : Int) * h2 - hdmz
      have := ih b (a % b) x (px - ((a / b : Nat) : Int) * x) y (py - ((a / b : Nat) : Int) * y)
        A B (by omega) h2 h2'
      simpa only [xgcdLoop, if_neg h, Nat.gcd_rec b a] using this

theorem xgcd_spec (a m : Nat) :
    (xgcd a m).1 = Nat.gcd m a ∧
    (a : Int) * (xgcd a m).2.1 + (m : Int) * (xgcd a m).2.2 = ((xgcd a m).1 : Int) :=
  xgcdLoop_spec (m + 1) a m 1 0 0 1 a m (Nat.le_succ m) (by ring) (by ring)

theorem modinv_ok (a m : Nat) (hg : Nat.gcd m a = 1) (hm : 1 < m) :
    ∃ d : Nat, modinv a m = .ok d ∧ a * d % m = 1 := by
  obtain ⟨hg1, hbez⟩ := xgcd_spec a m
  refine ⟨((xgcd a m).2.1 % (m : Int)).toNat, ?_, ?_⟩
  · simp [modinv, hg1, hg]
  · have hxy : (a : Int) * (xgcd a m).2.1 + (m : Int) * (xgcd a m).2.2 = 1 := by
      rw [hbez, hg1, hg]; norm_num
    have hmpos : (0 : Int) < (m : Int) := by exact_mod_cast Nat.zero_lt_of_lt hm
    have hnn : 0 ≤ (xgcd a m).2.1 % (m : Int) := Int.emod_nonneg _ (ne_of_gt hmpos)
    have key : ((a : Int) * ((xgcd a m).2.1 % (m : Int))) % (m : Int) = 1 := by
      have e1 : ((a : Int) * ((xgcd a m).2.1 % (m : Int))) % (m : Int) =
          ((a : Int) * (xgcd a m).2.1) % (m : Int) := by
        conv_lhs => rw [Int.mul_emod]
        conv_rhs => rw [Int.mul_emod]
        rw [Int.emod_emod_of_dvd _ dvd_rfl]
      have e2 : (a : Int) * (xgcd a m).2.1 = 1 - (m : Int) * (xgcd a m).2.2 := by
        linarith
      have e3 : (1 - (m : Int) * (xgcd a m).2.2) % (m : Int) = 1 % (m : Int) := by
        rw [Int.sub_emod, Int.mul_emod_right, sub_zero, Int.emod_emod_of_dvd _ dvd_rfl]
      rw [e1, e2, e3]
      exact Int.emod_eq_of_lt (by norm_num) (by exact_mod_cast hm)
    have hcast : ((a * ((xgcd a m).2.1 % (m : Int)).toNat : Nat) : Int) % (m : Int) = 1 := by
      push_cast [Int.toNat_of_nonneg hnn]
      exact key
    exact_mod_cast hcast

/-! ## The textbook RSA identity -/

theorem pow_exp_modeq (p : Nat) (hp : Nat.Prime p) (n : Nat) (hn : 1 ≤ n)
    (hmod : n ≡ 1 [MOD p - 1]) (m : Nat) : m ^ n ≡ m [MOD p] := by
  by_cases hpm : p ∣ m
  · have h0 : m ≡ 0 [MOD p] := Nat.modEq_zero_iff_dvd.mpr hpm
    calc m ^ n ≡ 0 ^ n [MOD p] := h0.pow n
      _ = 0 := by rw [zero_pow (by omega)]
      _ ≡ m [MOD p] := h0.symm
  · haveI : Fact (Nat.Prime p) := ⟨hp⟩
    have hm0 : (m : ZMod p) ≠ 0 := by
      rw [Ne, ZMod.natCast_zmod_eq_zero_iff_dvd]
      exact hpm
    obtain ⟨t, ht⟩ : (p - 1) ∣ (n - 1) := (Nat.modEq_iff_dvd' hn).mp hmod.symm
    have hn' : n = 1 + (p - 1) * t := by omega
    have hz : (m : ZMod p) ^ n = (m : ZMod p) := by
      rw [hn', pow_add, pow_one, pow_mul, ZMod.pow_card_sub_one_eq_one hm0, one_pow, mul_one]
    have hcast : ((m ^ n : Nat) : ZMod p) = ((m : Nat) : ZMod p) := by
      push_cast
      exact hz
    exact (ZMod.natCast_eq_natCast_iff _ _ _).mp hcast

theorem rsa_roundtrip_pow (p q e d m : Nat) (hp : Nat.Prime p) (hq : Nat.Prime q)
    (hpq : p ≠ q) (hed : e * d % Nat.lcm (p - 1) (q - 1) = 1) (hm : m < p * q) :
    (m ^ e % (p * q)) ^ d % (p * q) = m := by
  have hp1 : 0 < p - 1 := by have := hp.two_le; omega
  have hq1 : 0 < q - 1 := by have := hq.two_le; omega
  have hLpos : 0 < Nat.lcm (p - 1) (q - 1) := Nat.lcm_pos hp1 hq1
  have hL2 : 2 ≤ Nat.lcm (p - 1) (q - 1) := by
    by_contra hcon
    have h1 : Nat.lcm (p - 1) (q - 1) = 1 := by omega
    rw [h1, Nat.mod_one] at hed
    exact absurd hed (by norm_num)
  have hedL : e * d ≡ 1 [MOD Nat.lcm (p - 1) (q - 1)] := by
    show e * d % Nat.lcm (p - 1) (q - 1) = 1 % Nat.lcm (p - 1) (q - 1)
    rw [hed, Nat.mod_eq_of_lt hL2]
  have hed1 : 1 ≤ e * d := by
    by_contra hcon
    have h0 : e * d = 0 := by omega
    rw [h0, Nat.zero_mod] at hed
    exact absurd hed (by norm_num)
  have hmp : m ^ (e * d) ≡ m [MOD p] :=
    pow_exp_modeq p hp (e * d) hed1 (hedL.of_dvd (Nat.dvd_lcm_left _ _)) m
  have hmq : m ^ (e * d) ≡ m [MOD q] :=
    pow_exp_modeq q hq (e * d) hed1 (hedL.of_dvd (Nat.dvd_lcm_right _ _)) m
  have hco : Nat.Coprime p q := (Nat.coprime_primes hp hq).mpr hpq
  have hmul : m ^ (e * d) ≡ m [MOD p * q] :=
    (Nat.modEq_and_modEq_iff_modEq_mul hco).mp ⟨hmp, hmq⟩
  calc (m ^ e % (p * q)) ^ d % (p * q)
      = (m ^ e) ^ d % (p * q) := by rw [← Nat.pow_mod]
    _ = m ^ (e * d) % (p * q) := by rw [← pow_mul]
    _ = m % (p * q) := hmul
    _ = m := Nat.mod_eq_of_lt hm

/-! ## Cipher lemmas -/

theorem decryptChars_roundtrip (n e d : Nat)
    (hn : ∀ m : Nat, m < n → (m ^ e % n) ^ d % n = m) :
    ∀ message : PyStr, (∀ m ∈ message, m < n) → (∀ m ∈ message, m < 0x110000) →
      decryptChars d n (message.map fun m => m ^ e % n) = .ok message := by
  intro message
  induction message with
  | nil => intro _ _; rfl
  | cons m ms ih =>
    intro hlt hchar
    have h1 : (m ^ e % n) ^ d % n = m := hn m (hlt m (by simp))
    have h2 : m < 0x110000 := hchar m (by simp)
    simp only [List.map_cons, decryptChars, h1, pyChr, if_pos h2]
    rw [ih (fun x hx => hlt x (by simp [hx])) (fun x hx => hchar x (by simp [hx]))]

theorem decryptChars_no_state_error (D N : Nat) : ∀ l : List Nat,
    decryptChars D N l ≠ .error .keyPairNotGenerated := by
  intro l
  induction l with
  | nil => intro h; exact Except.noConfusion h
  | cons c cs ih =>
    intro h
    by_cases hlt : c ^ D % N < 0x110000
    · simp only [decryptChars, pyChr, if_pos hlt] at h
      rcases hrec : decryptChars D N cs with e | rest
      · rw [hrec] at h
        exact ih (hrec.trans (congrArg Except.error (Except.error.inj h)))
      · rw [hrec] at h
        exact Except.noConfusion h
    · simp only [decryptChars, pyChr, if_neg hlt] at h
      exact PyError.noConfusion (Except.error.inj h)

theorem decryptChars_ok_iff (D N : Nat) : ∀ l : List Nat,
    (∃ s, decryptChars D N l = .ok s) ↔ ∀ c ∈ l, c ^ D % N < 0x110000 := by
  intro l
  induction l with
  | nil =>
    constructor
    · intro _ c hc
      exact absurd hc (List.not_mem_nil c)
    · intro _
      exact ⟨[], rfl⟩
  | cons c cs ih =>
    constructor
    · rintro ⟨s, hs⟩ x hx
      by_cases hlt : c ^ D % N < 0x110000
      · rcases List.mem_cons.mp hx with rfl | hx'
        · exact hlt
        · refine ih.mp ?_ x hx'
          simp only [decryptChars, pyChr, if_pos hlt] at hs
          rcases hrec : decryptChars D N cs with e | rest
          · rw [hrec] at hs
            exact Except.noConfusion hs
          · exact ⟨rest, rfl⟩
      · simp only [decryptChars, pyChr, if_neg hlt] at hs
        exact Except.noConfusion hs
    · intro hall
      have hlt : c ^ D % N < 0x110000 := hall c (by simp)
      obtain ⟨s, hs⟩ := ih.mpr (fun x hx => hall x (by simp [hx]))
      refine ⟨c ^ D % N :: s, ?_⟩
      simp only [decryptChars, pyChr, if_pos hlt, hs]

/-! ## Claims C1, C2, C6, C7, C8, C10 -/

/-- Claim C1: for a keypair satisfying the generator's invariant (two
distinct primes `p`, `q`, modulus `p * q`, exponents inverse modulo the
source's `lcm (p-1) (q-1)` totient), decrypting the encryption of any
plaintext whose code points are below the modulus returns exactly the
original plaintext. -/
theorem claim1_encrypt_decrypt_roundtrip (p q e d : Nat)
    (hp : Nat.Prime p) (hq : Nat.Prime q) (hpq : p ≠ q)
    (hed : e * d % lcm (p - 1) (q - 1) = 1)
    (message : PyStr) (hlt : ∀ m ∈ message, m < p * q)
    (hchar : ∀ m ∈ message, m < 0x110000) :
    decrypt (some ⟨⟨p * q, e⟩, ⟨d⟩⟩) (encrypt message ⟨p * q, e⟩) = .ok message := by
  have hed' : e * d % Nat.lcm (p - 1) (q - 1) = 1 := by rwa [lcm_eq] at hed
  show decryptChars d (p * q) (message.map fun m => m ^ e % (p * q)) = .ok message
  exact decryptChars_roundtrip (p * q) e d
    (fun m hm => rsa_roundtrip_pow p q e d m hp hq hpq hed' hm) message hlt hchar

/-- Witness for C1: the spec's own example key `p = 61`, `q = 53`,
`E = 17`, `D = 413 = modinv(17, lcm(60, 52))`, plaintext `"A"` (65),
whose ciphertext unit is `65^17 mod 3233 = 2790`. -/
theorem claim1_witness :
    decrypt (some ⟨⟨3233, 17⟩, ⟨413⟩⟩) (encrypt [65] ⟨3233, 17⟩) = .ok [65] :=
  claim1_encrypt_decrypt_roundtrip 61 53 17 413 (by norm_num) (by norm_num) (by norm_num)
    (by decide) [65] (by decide) (by decide)

/-- Claim C2: for a keypair satisfying the generator's invariant, verifying
the signature produced by `sign` over a message against the keypair's own
public key returns true (stated for any abstract hash value below the
modulus; a SHA-256 value is below `2^256 < N` for every generated
2048-bit key). -/
theorem claim2_sign_verify (p q e d : Nat)
    (hp : Nat.Prime p) (hq : Nat.Prime q) (hpq : p ≠ q)
    (hed : e * d % lcm (p - 1) (q - 1) = 1)
    (hashInt : PyStr → Nat) (message : PyStr) (hh : hashInt message < p * q) :
    ∃ s, sign hashInt (some ⟨⟨p * q, e⟩, ⟨d⟩⟩) message = .ok s ∧
      verify hashInt message s ⟨p * q, e⟩ = true := by
  have hed' : d * e % Nat.lcm (p - 1) (q - 1) = 1 := by
    rw [mul_comm d e]
    rwa [lcm_eq] at hed
  refine ⟨hashInt message ^ d % (p * q), rfl, ?_⟩
  show (hashInt message == (hashInt message ^ d % (p * q)) ^ e % (p * q)) = true
  rw [rsa_roundtrip_pow p q d e (hashInt message) hp hq hpq hed' hh]
  exact beq_self_eq_true _

/-- Witness for C2: the example key, with an abstract hash value 42. -/
theorem claim2_witness :
    ∃ s, sign (fun _ => 42) (some ⟨⟨3233, 17⟩, ⟨413⟩⟩) [72] = .ok s ∧
      verify (fun _ => 42) [72] s ⟨3233, 17⟩ = true :=
  claim2_sign_verify 61 53 17 413 (by norm_num) (by norm_num) (by norm_num)
    (by decide) (fun _ => 42) [72] (by decide)

/-- Claim C6: `decrypt` and `sign` fail with the missing-key-pair error
exactly when no keypair is present; with a keypair present neither can
fail for that reason. -/
theorem claim6_state_error_iff :
    ∀ (key_pair : Option RSAKeyPair) (units : List Nat) (hashInt : PyStr → Nat)
      (message : PyStr),
      (decrypt key_pair units = .error .keyPairNotGenerated ↔ key_pair = none) ∧
      (sign hashInt key_pair message = .error .keyPairNotGenerated ↔ key_pair = none) := by
  intro kp units hashInt message
  cases kp with
  | none => exact ⟨⟨fun _ => rfl, fun _ => rfl⟩, ⟨fun _ => rfl, fun _ => rfl⟩⟩
  | some kp =>
    refine ⟨⟨fun h => ?_, fun h => Option.noConfusion h⟩,
      ⟨fun h => Except.noConfusion h, fun h => Option.noConfusion h⟩⟩
    exact absurd h (decryptChars_no_state_error _ _ units)

/-- Claim C7: a send attempted without a stored remote public key or
without a local keypair produces only the "Encryption keys not exchanged."
notice, leaves the state unchanged, and performs no transport write. -/
theorem claim7_send_not_ready :
    ∀ (hashInt : PyStr → Nat) (st : ChatState) (message nickname : PyStr),
      st.other_public_key = none ∨ st.key_pair = none →
      send_message hashInt st message nickname = (st, [.chatLine .encryptionKeysNotExchanged]) ∧
      ∀ o ∈ (send_message hashInt st message nickname).2, o.isWrite = false := by
  intro hashInt st message nickname h
  have hmain : send_message hashInt st message nickname =
      (st, [.chatLine .encryptionKeysNotExchanged]) := by
    rcases h with h | h
    · simp [send_message, h]
    · rcases hop : st.other_public_key with _ | opk
      · simp [send_message, hop]
      · simp [send_message, hop, h]
  refine ⟨hmain, ?_⟩
  rw [hmain]
  intro o ho
  rcases List.mem_singleton.mp ho with rfl
  rfl

/-- Witness for C7: a state with a local keypair but no remote key. -/
theorem claim7_witness :
    send_message (fun _ => 0) ⟨some ⟨⟨3233, 17⟩, ⟨413⟩⟩, none, false, true⟩ [72] [] =
      (⟨some ⟨⟨3233, 17⟩, ⟨413⟩⟩, none, false, true⟩, [.chatLine .encryptionKeysNotExchanged]) :=
  (claim7_send_not_ready (fun _ => 0) _ [72] [] (Or.inl rfl)).1

/-- Claim C8: an envelope received while no remote public key is stored is
reported as a distinguishable "Message handling error" event (the
`verify` against `None` — or the decrypt attempt — raises and the
`except` block catches it); no plaintext is delivered, the state is
unchanged, and the receive loop goes on to process the following
envelopes exactly as before. -/
theorem claim8_envelope_before_key :
    ∀ (hashInt : PyStr → Nat) (st : ChatState) (env : EnvelopeData)
      (rest : List EnvelopeData),
      st.other_public_key = none →
      handleEnvelope hashInt st env = (st, [.chatLine .messageHandlingError]) ∧
      handleEnvelopes hashInt st (env :: rest) =
        ((handleEnvelopes hashInt st rest).1,
          .chatLine .messageHandlingError :: (handleEnvelopes hashInt st rest).2) := by
  intro hashInt st env rest hnone
  have hmain : handleEnvelope hashInt st env = (st, [.chatLine .messageHandlingError]) := by
    rcases hkp : st.key_pair with _ | kp
    · simp [handleEnvelope, hkp, decrypt]
    · rcases hres : decryptChars kp.private_key.D kp.public_key.N env.message with e | s
      · simp [handleEnvelope, hkp, decrypt, hres]
      · simp [handleEnvelope, hkp, decrypt, hres, verifyOpt, hnone]
  refine ⟨hmain, ?_⟩
  simp only [handleEnvelopes, hmain, List.singleton_append]

/-- Witness for C8: an empty envelope received with no remote key. -/
theorem claim8_witness :
    handleEnvelope (fun _ => 0) ⟨none, none, true, true⟩ ⟨none, [], 0⟩ =
      (⟨none, none, true, true⟩, [.chatLine .messageHandlingError]) :=
  (claim8_envelope_before_key (fun _ => 0) _ _ [] rfl).1

/-- Claim C10: with a keypair present, `decrypt` returns a string exactly
when every unit's decrypted residue is a valid code point (`< 0x110000`),
and a peer-supplied envelope with an out-of-range residue reaches
`decrypt` unvalidated, so handling it ends in the caught-error event. -/
theorem claim10_decrypt_chr_range :
    (∀ (kp : RSAKeyPair) (units : List Nat),
        (∃ s, decrypt (some kp) units = .ok s) ↔
          ∀ c ∈ units, c ^ kp.private_key.D % kp.public_key.N < 0x110000) ∧
    (∀ (hashInt : PyStr → Nat) (st : ChatState) (env : EnvelopeData) (kp : RSAKeyPair),
        st.key_pair = some kp →
        (∃ c ∈ env.message, ¬ c ^ kp.private_key.D % kp.public_key.N < 0x110000) →
        handleEnvelope hashInt st env = (st, [.chatLine .messageHandlingError])) := by
  constructor
  · intro kp units
    exact decryptChars_ok_iff _ _ units
  · intro hashInt st env kp hkp hbad
    obtain ⟨c, hc, hge⟩ := hbad
    rcases hres : decryptChars kp.private_key.D kp.public_key.N env.message with e | s
    · simp [handleEnvelope, hkp, decrypt, hres]
    · exact absurd ((decryptChars_ok_iff _ _ env.message).mp ⟨s, hres⟩ c hc) hge

/-- Witness for C10: a loadable keypair `N = 2000000`, `D = 1` and the
peer-supplied unit 1500000, whose residue 1500000 exceeds 0x10FFFF. -/
theorem claim10_witness :
    handleEnvelope (fun _ => 0) ⟨some ⟨⟨2000000, 3⟩, ⟨1⟩⟩, none, true, true⟩
        ⟨none, [1500000], 7⟩ =
      (⟨some ⟨⟨2000000, 3⟩, ⟨1⟩⟩, none, true, true⟩, [.chatLine .messageHandlingError]) :=
  claim10_decrypt_chr_range.2 (fun _ => 0) _ _ ⟨⟨2000000, 3⟩, ⟨1⟩⟩ rfl
    ⟨1500000, by decide, by decide⟩

/-! ## Decimal rendering and `int()` parsing -/

theorem natDigitsAux_ofDigits : ∀ fuel n : Nat, n ≤ fuel →
    Nat.ofDigits 10 (natDigitsAux fuel n) = n := by
  intro fuel
  induction fuel with
  | zero =>
    intro n hn
    interval_cases n
    simp [natDigitsAux]
  | succ fuel ih =>
    intro n hn
    by_cases h : n = 0
    · subst h
      simp [natDigitsAux]
    · have hdiv : n / 10 ≤ fuel := by
        have := Nat.div_lt_self (Nat.pos_of_ne_zero h) (by norm_num : 1 < 10)
        omega
      simp only [natDigitsAux, if_neg h, Nat.ofDigits_cons, ih (n / 10) hdiv]
      omega

theorem natDigitsAux_lt_ten : ∀ fuel n : Nat, ∀ d ∈ natDigitsAux fuel n, d < 10 := by
  intro fuel
  induction fuel with
  | zero =>
    intro n d hd
    simp [natDigitsAux] at hd
  | succ fuel ih =>
    intro n d hd
    by_cases h : n = 0
    · subst h
      simp [natDigitsAux] at hd
    · simp only [natDigitsAux, if_neg h, List.mem_cons] at hd
      rcases hd with rfl | hd
      · exact Nat.mod_lt n (by norm_num)
      · exact ih (n / 10) d hd

theorem natDigitsAux_length : ∀ (k fuel n : Nat), n ≤ fuel → n < 10 ^ k →
    (natDigitsAux fuel n).length ≤ k := by
  intro k
  induction k with
  | zero =>
    intro fuel n hfuel hk
    have hn0 : n = 0 := by simpa using hk
    subst hn0
    cases fuel <;> simp [natDigitsAux]
  | succ k ih =>
    intro fuel n hfuel hk
    cases fuel with
    | zero =>
      have hn0 : n = 0 := by omega
      subst hn0
      simp [natDigitsAux]
    | succ fuel =>
      by_cases h : n = 0
      · subst h
        simp [natDigitsAux]
      · have hdivfuel : n / 10 ≤ fuel := by
          have := Nat.div_lt_self (Nat.pos_of_ne_zero h) (by norm_num : 1 < 10)
          omega
        have hdivk : n / 10 < 10 ^ k := by
          rw [Nat.div_lt_iff_lt_mul (by norm_num : 0 < 10)]
          calc n < 10 ^ (k + 1) := hk
            _ = 10 ^ k * 10 := by ring
        simp only [natDigitsAux, if_neg h, List.length_cons]
        have := ih fuel (n / 10) hdivfuel hdivk
        omega

theorem foldl_digits_reverse : ∀ (L : List Nat) (a : Nat),
    L.reverse.foldl (fun acc d => 10 * acc + d) a = a * 10 ^ L.length + Nat.ofDigits 10 L := by
  intro L
  induction L with
  | nil =>
    intro a
    simp [Nat.ofDigits_nil]
  | cons d L ih =>
    intro a
    simp only [List.reverse_cons, List.foldl_append, ih, List.foldl_cons, List.foldl_nil,
      Nat.ofDigits_cons, List.length_cons]
    ring

theorem decDigits_val (n : Nat) :
    (decDigits n).foldl (fun acc d => 10 * acc + d) 0 = n := by
  by_cases h : n = 0
  · subst h
    simp [decDigits]
  · rw [decDigits, if_neg h, foldl_digits_reverse, natDigitsAux_ofDigits n n le_rfl]
    simp

theorem decDigits_ne_nil (n : Nat) : decDigits n ≠ [] := by
  by_cases h : n = 0
  · subst h
    simp [decDigits]
  · rw [decDigits, if_neg h]
    obtain ⟨k, rfl⟩ : ∃ k, n = k + 1 := ⟨n - 1, by omega⟩
    simp [natDigitsAux]

theorem decDigits_lt_ten (n : Nat) : ∀ d ∈ decDigits n, d < 10 := by
  intro d hd
  by_cases h : n = 0
  · subst h
    simp [decDigits] at hd
    omega
  · rw [decDigits, if_neg h, List.mem_reverse] at hd
    exact natDigitsAux_lt_ten n n d hd

theorem decDigits_length_le (n k : Nat) (h : n < 10 ^ k) (hk : 1 ≤ k) :
    (decDigits n).length ≤ k := by
  by_cases h0 : n = 0
  · subst h0
    simpa [decDigits] using hk
  · rw [decDigits, if_neg h0, List.length_reverse]
    exact natDigitsAux_length k n n le_rfl h

theorem decDigitBytes_mem (n : Nat) : ∀ b ∈ decDigitBytes n, 48 ≤ b ∧ b ≤ 57 := by
  intro b hb
  simp only [decDigitBytes, List.mem_map] at hb
  obtain ⟨d, hd, rfl⟩ := hb
  have := decDigits_lt_ten n d hd
  omega

theorem decDigitBytes_ne_nil (n : Nat) : decDigitBytes n ≠ [] := by
  simpa [decDigitBytes, List.map_eq_nil_iff] using decDigits_ne_nil n

theorem decDigitBytes_length_le (n k : Nat) (h : n < 10 ^ k) (hk : 1 ≤ k) :
    (decDigitBytes n).length ≤ k := by
  rw [decDigitBytes, List.length_map]
  exact decDigits_length_le n k h hk

theorem dropWhile_replicate_space (k : Nat) (l : List Nat) :
    (List.replicate k 32 ++ l).dropWhile isSpaceByte = l.dropWhile isSpaceByte := by
  induction k with
  | zero => simp
  | succ k ih =>
    rw [List.replicate_succ, List.cons_append, List.dropWhile_cons]
    simp only [isSpaceByte, beq_self_eq_true, if_true]
    exact ih

theorem dropWhile_of_digits : ∀ l : List Nat, (∀ b ∈ l, 48 ≤ b ∧ b ≤ 57) →
    l.dropWhile isSpaceByte = l := by
  intro l hl
  cases l with
  | nil => rfl
  | cons b bs =>
    have hb := hl b (by simp)
    have hsp : isSpaceByte b = false := by
      simp only [isSpaceByte, beq_eq_false_iff_ne, ne_eq]
      omega
    rw [List.dropWhile_cons, hsp]
    simp

theorem trimSpaces_digits_pad (n k : Nat) :
    trimSpaces (decDigitBytes n ++ List.replicate k 32) = decDigitBytes n := by
  rw [trimSpaces]
  have h1 : (decDigitBytes n ++ List.replicate k 32).dropWhile isSpaceByte
      = decDigitBytes n ++ List.replicate k 32 := by
    cases hd : decDigitBytes n with
    | nil => exact absurd hd (decDigitBytes_ne_nil n)
    | cons b bs =>
      have hb : 48 ≤ b ∧ b ≤ 57 := decDigitBytes_mem n b (by rw [hd]; simp)
      have hsp : isSpaceByte b = false := by
        simp only [isSpaceByte, beq_eq_false_iff_ne, ne_eq]
        omega
      rw [List.cons_append, List.dropWhile_cons, hsp]
      simp
  rw [h1, List.reverse_append, List.reverse_replicate, dropWhile_replicate_space,
    dropWhile_of_digits ((decDigitBytes n).reverse)
      (fun b hb => decDigitBytes_mem n b (List.mem_reverse.mp hb)),
    List.reverse_reverse]

theorem foldl_bytes_eq : ∀ (l : List Nat) (a : Nat),
    (l.map (· + 48)).foldl (fun acc b => 10 * acc + (b - 48)) a =
      l.foldl (fun acc d => 10 * acc + d) a := by
  intro l
  induction l with
  | nil => intro a; rfl
  | cons d ds ih =>
    intro a
    simp only [List.map_cons, List.foldl_cons, Nat.add_sub_cancel]
    exact ih _

theorem pyIntBytes_digits_pad (n k : Nat) :
    pyIntBytes (decDigitBytes n ++ List.replicate k 32) = some n := by
  simp only [pyIntBytes, trimSpaces_digits_pad]
  have hne : decDigitBytes n ≠ [] := decDigitBytes_ne_nil n
  have hall : (decDigitBytes n).all isDigitByte = true := by
    rw [List.all_eq_true]
    intro b hb
    have := decDigitBytes_mem n b hb
    simp only [isDigitByte, Bool.and_eq_true, decide_eq_true_eq]
    omega
  rw [if_pos ⟨hne, hall⟩]
  have : (decDigitBytes n).foldl (fun acc b => 10 * acc + (b - 48)) 0 = n := by
    rw [decDigitBytes, foldl_bytes_eq, decDigits_val]
  rw [this]

theorem pyIntBytes_decDigitBytes (n : Nat) : pyIntBytes (decDigitBytes n) = some n := by
  have := pyIntBytes_digits_pad n 0
  simpa using this

theorem headerBytes_length (n : Nat) (h : n < 10 ^ 10) : (headerBytes n).length = 10 := by
  rw [headerBytes, List.length_append, List.length_replicate]
  have := decDigitBytes_length_le n 10 h (by norm_num)
  omega

theorem pyIntBytes_headerBytes (n : Nat) : pyIntBytes (headerBytes n) = some n :=
  pyIntBytes_digits_pad n _

theorem splitFirst_append (sep : Nat) : ∀ (l r : List Nat), sep ∉ l →
    splitFirst sep (l ++ sep :: r) = some (l, r) := by
  intro l
  induction l with
  | nil =>
    intro r _
    simp [splitFirst]
  | cons c cs ih =>
    intro r hmem
    have hc : ¬ c = sep := fun hcc => hmem (by simp [hcc])
    simp only [List.cons_append, splitFirst, if_neg hc, List.append_eq,
      ih r (fun h => hmem (by simp [h]))]

/-! ## Handshake lemmas and claim C5 -/

theorem keysMessage_take_five (N E : Nat) : (keysMessage N E).take 5 = keysTag := rfl

theorem handleKeys_keysMessage (st : ChatState) (N E : Nat) :
    handleKeys st (keysMessage N E) =
      (if st.is_client then ({ st with other_public_key := some ⟨N, E⟩ }, [.chatLine .receivedPublicKey])
       else ({ st with other_public_key := some ⟨N, E⟩ },
         .chatLine .receivedPublicKey ::
           send_public_key { st with other_public_key := some ⟨N, E⟩ })) := by
  have hsplit1 : splitFirst 58 (keysMessage N E) =
      some ([75, 69, 89, 83], decDigitBytes N ++ 44 :: decDigitBytes E) := by
    have hshape : keysMessage N E =
        [75, 69, 89, 83] ++ 58 :: (decDigitBytes N ++ 44 :: decDigitBytes E) := by
      simp [keysMessage, keysTag]
    rw [hshape]
    exact splitFirst_append 58 _ _ (by decide)
  have hsplit2 : splitFirst 44 (decDigitBytes N ++ 44 :: decDigitBytes E) =
      some (decDigitBytes N, decDigitBytes E) := by
    refine splitFirst_append 44 _ _ fun h => ?_
    have := decDigitBytes_mem N 44 h
    omega
  simp only [handleKeys, hsplit1, hsplit2, pyIntBytes_decDigitBytes]

/-- Claim C5 (amended): on receiving `KEYS:<N>,<E>` the receiver parses
`N` and `E`, stores them as the remote public key, and responds with its
own `KEYS` line whenever its local role is listener and it is connected
with a keypair — on every such receipt, not only the first; the initiator
(client role) never responds. -/
theorem claim5_handshake_response :
    ∀ (hashInt : PyStr → Nat) (jsonLoads : PyStr → Option EnvelopeData)
      (st : ChatState) (N E : Nat),
      (st.is_client = false → st.client_socket = true → ∀ kp, st.key_pair = some kp →
        handle_received_message hashInt jsonLoads st (keysMessage N E) =
          ({ st with other_public_key := some ⟨N, E⟩ },
            [.chatLine .receivedPublicKey,
             .transportWrite (encode_frame (keysMessage kp.public_key.N kp.public_key.E)),
             .chatLine .publicKeySent])) ∧
      (st.is_client = true →
        handle_received_message hashInt jsonLoads st (keysMessage N E) =
          ({ st with other_public_key := some ⟨N, E⟩ }, [.chatLine .receivedPublicKey])) := by
  intro hashInt jsonLoads st N E
  have hdisp : handle_received_message hashInt jsonLoads st (keysMessage N E) =
      handleKeys st (keysMessage N E) := by
    rw [handle_received_message, keysMessage_take_five, if_pos rfl]
  constructor
  · intro hlis hconn kp hkp
    rw [hdisp, handleKeys_keysMessage, if_neg (by simp [hlis])]
    rw [send_public_key]
    simp only [hconn, hkp]
    rw [send_data]
    simp [hconn]
  · intro hcli
    rw [hdisp, handleKeys_keysMessage, if_pos (by simp [hcli])]

set_option maxRecDepth 100000 in
set_option maxHeartbeats 1000000 in
/-- Witness for C5 (amended): a connected listener holding the example key
receives `KEYS:3127,13`; it stores the key and answers with its own
`KEYS:3233,17` frame. -/
theorem claim5_witness :
    handle_received_message (fun _ => 0) (fun _ => none)
        ⟨some ⟨⟨3233, 17⟩, ⟨413⟩⟩, none, false, true⟩ (keysMessage 3127 13) =
      (⟨some ⟨⟨3233, 17⟩, ⟨413⟩⟩, some ⟨3127, 13⟩, false, true⟩,
        [.chatLine .receivedPublicKey,
         .transportWrite (encode_frame (keysMessage 3233 17)),
         .chatLine .publicKeySent]) :=
  (claim5_handshake_response (fun _ => 0) (fun _ => none)
    ⟨some ⟨⟨3233, 17⟩, ⟨413⟩⟩, none, false, true⟩ 3127 13).1 rfl rfl _ rfl

set_option maxRecDepth 100000 in
set_option maxHeartbeats 1000000 in
/-- Counterexample for C5 as stated: a listener that has already received
one `KEYS` message (its remote key is stored) receives a second one and
still responds with a transport write, though the claim says it responds
only on the first key received. -/
theorem claim5_counterexample :
    ((handle_received_message (fun _ => 0) (fun _ => none)
        ⟨some ⟨⟨3233, 17⟩, ⟨413⟩⟩, none, false, true⟩ (keysMessage 3233 17)).1.other_public_key
      = some ⟨3233, 17⟩) ∧
    ((handle_received_message (fun _ => 0) (fun _ => none)
        ((handle_received_message (fun _ => 0) (fun _ => none)
          ⟨some ⟨⟨3233, 17⟩, ⟨413⟩⟩, none, false, true⟩ (keysMessage 3233 17)).1)
        (keysMessage 3127 13)).2.any Out.isWrite = true) := by
  decide

/-! ## Frame decoder lemmas and claim C4 -/

theorem feedChunk_not_new (buf : List Nat) (n : Nat) (c : List Nat) :
    feedChunk ⟨buf, false, n⟩ c =
      (if (buf ++ c).length = 10 + n then some (⟨[], true, n⟩, some ((buf ++ c).drop 10))
       else some (⟨buf ++ c, false, n⟩, none)) := by
  by_cases h : (buf ++ c).length = 10 + n
  · simp [feedChunk, h]
  · simp [feedChunk, h]

theorem decodeChunks_reset (m m' : Nat) (cs : List (List Nat)) :
    decodeChunks ⟨[], true, m⟩ cs = decodeChunks ⟨[], true, m'⟩ cs := by
  cases cs with
  | nil => rfl
  | cons c cs =>
    have hfc : feedChunk ⟨[], true, m⟩ c = feedChunk ⟨[], true, m'⟩ c := by
      simp [feedChunk]
    simp only [decodeChunks, hfc]

theorem decodeChunks_step_no_dispatch (buf : List Nat) (n : Nat) (c : List Nat)
    (cs : List (List Nat)) (h : (buf ++ c).length ≠ 10 + n) :
    decodeChunks ⟨buf, false, n⟩ (c :: cs) = decodeChunks ⟨buf ++ c, false, n⟩ cs := by
  simp only [decodeChunks, feedChunk_not_new, if_neg h]

theorem decodeChunks_step_dispatch (buf : List Nat) (n : Nat) (c : List Nat)
    (cs : List (List Nat)) (h : (buf ++ c).length = 10 + n) :
    decodeChunks ⟨buf, false, n⟩ (c :: cs) =
      (buf ++ c).drop 10 :: decodeChunks initDec cs := by
  simp only [decodeChunks, feedChunk_not_new, if_pos h]
  rw [decodeChunks_reset n 0 cs]
  rfl

theorem decodeChunks_first_step (c : List Nat) (cs : List (List Nat)) (len : Nat)
    (hp : pyIntBytes (c.take 10) = some len) :
    decodeChunks initDec (c :: cs) =
      (if c.length = 10 + len then c.drop 10 :: decodeChunks initDec cs
       else decodeChunks ⟨c, false, len⟩ cs) := by
  have hfc : feedChunk initDec c =
      (if c.length = 10 + len then some (⟨[], true, len⟩, some (c.drop 10))
       else some (⟨c, false, len⟩, none)) := by
    by_cases h : c.length = 10 + len
    · simp [feedChunk, initDec, hp, h]
    · simp [feedChunk, initDec, hp, h]
  by_cases h : c.length = 10 + len
  · simp only [decodeChunks, hfc, if_pos h]
    rw [decodeChunks_reset len 0 cs]
    rfl
  · simp only [decodeChunks, hfc, if_neg h]

theorem decodeChunks_fill : ∀ (cs : List (List Nat)) (buf : List Nat) (n : Nat)
    (rest : List (List Nat)),
    cs ≠ [] → (∀ c ∈ cs, c ≠ []) →
    buf.length + cs.flatten.length = 10 + n →
    decodeChunks ⟨buf, false, n⟩ (cs ++ rest) =
      (buf ++ cs.flatten).drop 10 :: decodeChunks initDec rest := by
  intro cs
  induction cs with
  | nil =>
    intro buf n rest hne _ _
    exact absurd rfl hne
  | cons c cs ih =>
    intro buf n rest _ hcs hlen
    cases cs with
    | nil =>
      have hlenc : (buf ++ c).length = 10 + n := by
        simp only [List.flatten_cons, List.flatten_nil, List.append_nil] at hlen
        simp only [List.length_append] at hlen ⊢
        omega
      rw [show ([c] : List (List Nat)) ++ rest = c :: rest from rfl,
        decodeChunks_step_dispatch buf n c rest hlenc]
      simp
    | cons c2 cs2 =>
      have hc2 : c2 ≠ [] := hcs c2 (by simp)
      have hjoin_pos : 0 < (c2 :: cs2).flatten.length := by
        cases c2 with
        | nil => exact absurd rfl hc2
        | cons x xs => simp [List.flatten_cons]
      have hlt : (buf ++ c).length ≠ 10 + n := by
        simp only [List.flatten_cons, List.length_append] at hlen hjoin_pos ⊢
        omega
      rw [show (c :: c2 :: cs2) ++ rest = c :: (c2 :: cs2 ++ rest) from rfl,
        decodeChunks_step_no_dispatch buf n c _ hlt,
        ih (buf ++ c) n rest (by simp) (fun x hx => hcs x (by simp [hx]))
          (by simp only [List.flatten_cons, List.length_append] at hlen ⊢; omega)]
      simp [List.flatten_cons, List.append_assoc]

theorem encode_frame_length (body : List Nat) (h : body.length < 10 ^ 10) :
    (encode_frame body).length = 10 + body.length := by
  simp [encode_frame, headerBytes_length body.length h]

theorem encode_frame_take_ten (body : List Nat) (h : body.length < 10 ^ 10) :
    (encode_frame body).take 10 = headerBytes body.length := by
  rw [encode_frame, show (10 : Nat) = (headerBytes body.length).length from
    (headerBytes_length body.length h).symm, List.take_left]

theorem encode_frame_drop_ten (body : List Nat) (h : body.length < 10 ^ 10) :
    (encode_frame body).drop 10 = body := by
  rw [encode_frame, show (10 : Nat) = (headerBytes body.length).length from
    (headerBytes_length body.length h).symm, List.drop_left]

theorem decodeChunks_frame : ∀ (body c1 : List Nat) (cs rest : List (List Nat)),
    body.length < 10 ^ 10 → 10 ≤ c1.length → (∀ c ∈ cs, c ≠ []) →
    c1 ++ cs.flatten = encode_frame body →
    decodeChunks initDec ((c1 :: cs) ++ rest) = body :: decodeChunks initDec rest := by
  intro body c1 cs rest hsmall hc1 hcs hframe
  have hframe_len : (encode_frame body).length = 10 + body.length :=
    encode_frame_length body hsmall
  have hparse : pyIntBytes (c1.take 10) = some body.length := by
    have h10 : c1.take 10 = (encode_frame body).take 10 := by
      rw [← hframe, List.take_append_of_le_length hc1]
    rw [h10, encode_frame_take_ten body hsmall, pyIntBytes_headerBytes]
  cases cs with
  | nil =>
    have hc1eq : c1 = encode_frame body := by simpa using hframe
    have hlen : c1.length = 10 + body.length := by rw [hc1eq, hframe_len]
    have hdrop : c1.drop 10 = body := by rw [hc1eq, encode_frame_drop_ten body hsmall]
    rw [show ([c1] : List (List Nat)) ++ rest = c1 :: rest from rfl,
      decodeChunks_first_step c1 rest body.length hparse, if_pos hlen, hdrop]
  | cons c2 cs2 =>
    have hc2 : c2 ≠ [] := hcs c2 (by simp)
    have hjoin_pos : 0 < (c2 :: cs2).flatten.length := by
      cases c2 with
      | nil => exact absurd rfl hc2
      | cons x xs => simp [List.flatten_cons]
    have hlt : c1.length ≠ 10 + body.length := by
      have : c1.length + (c2 :: cs2).flatten.length = 10 + body.length := by
        rw [← hframe_len, ← hframe, List.length_append]
      omega
    rw [show (c1 :: c2 :: cs2) ++ rest = c1 :: (c2 :: cs2 ++ rest) from rfl,
      decodeChunks_first_step c1 _ body.length hparse, if_neg hlt,
      decodeChunks_fill (c2 :: cs2) c1 body.length rest (by simp) hcs
        (by rw [← hframe_len, ← hframe, List.length_append]), hframe,
      encode_frame_drop_ten body hsmall]

/-- Claim C4 (amended): the receive-loop decoder reassembles and
dispatches exactly the original bodies when the encoded frames are
delivered as nonempty chunks that do not span a frame boundary and the
first chunk of each frame carries the whole 10-byte header (bodies
shorter than `10^10` bytes, so the header is exactly 10 bytes).  The
decoder does not tolerate a chunk spanning two frames nor a first chunk
that truncates the header's digits (see the counterexample). -/
theorem claim4_decode_aligned :
    ∀ (bodies : List (List Nat)) (chunkss : List (List (List Nat))),
      List.Forall₂ (fun body chunks =>
        body.length < 10 ^ 10 ∧ (∀ c ∈ chunks, c ≠ []) ∧
        (∃ c1 cs, chunks = c1 :: cs ∧ 10 ≤ c1.length) ∧
        chunks.flatten = encode_frame body) bodies chunkss →
      decodeChunks initDec chunkss.flatten = bodies := by
  intro bodies chunkss h
  induction h with
  | nil => rfl
  | @cons body chunks bodies' chunkss' hR hrest ih =>
    obtain ⟨hsmall, hne, ⟨c1, cs, rfl, hc1⟩, hflat⟩ := hR
    rw [List.flatten_cons,
      decodeChunks_frame body c1 cs chunkss'.flatten hsmall hc1
        (fun c hc => hne c (by simp [hc])) (by simpa using hflat),
      ih]

set_option maxRecDepth 100000 in
set_option maxHeartbeats 1000000 in
/-- Witness for C4 (amended): two frames, the first split after its
header, the second delivered whole. -/
theorem claim4_witness :
    decodeChunks initDec [(encode_frame [65, 66]).take 10, (encode_frame [65, 66]).drop 10,
      encode_frame [67]] = [[65, 66], [67]] :=
  claim4_decode_aligned [[65, 66], [67]]
    [[(encode_frame [65, 66]).take 10, (encode_frame [65, 66]).drop 10], [encode_frame [67]]]
    (List.Forall₂.cons
      ⟨by norm_num, by decide, ⟨_, _, rfl, by decide⟩, by decide⟩
      (List.Forall₂.cons
        ⟨by norm_num, by decide, ⟨_, _, rfl, by decide⟩, by decide⟩
        List.Forall₂.nil))

set_option maxRecDepth 100000 in
set_option maxHeartbeats 1000000 in
/-- Counterexample for C4 as stated: (1) two 12-byte frames delivered as a
16-byte read followed by an 8-byte read (the first read spans the frame
boundary): the exact-length test never fires and nothing is dispatched;
(2) a single frame whose first read carries only the first header byte
`"1"` of the length 12: the header is mis-parsed as 1 and the frame is
never dispatched.  The claim requires `[[65, 66], [67, 68]]` and
`[replicate 12 65]` respectively. -/
theorem claim4_counterexample :
    decodeChunks initDec [(encode_frame [65, 66] ++ encode_frame [67, 68]).take 16,
      (encode_frame [65, 66] ++ encode_frame [67, 68]).drop 16] = [] ∧
    decodeChunks initDec [[49], ((encode_frame (List.replicate 12 65)).drop 1).take 16,
      (encode_frame (List.replicate 12 65)).drop 17] = [] := by
  decide

/-! ## Prime generation and key generation: claims C9 and C3 -/

theorem generate_prime_spec : ∀ (fuel L : Nat) (rand : Nat → Nat) (i p i' : Nat), 1 ≤ L →
    generate_prime_number L fuel rand i = some (p, i') →
    2 ^ (L - 1) ≤ p ∧ p < 2 ^ L ∧ p % 2 = 1 ∧ ∃ j, (is_prime p 128 rand j).1 = true := by
  intro fuel
  induction fuel with
  | zero =>
    intro L rand i p i' hL h
    exact absurd h (by simp [generate_prime_number])
  | succ fuel ih =>
    intro L rand i p i' hL h
    simp only [generate_prime_number] at h
    rcases hmr : is_prime (pyGetrandbits L (rand i) ||| (1 <<< (L - 1) ||| 1)) 128 rand (i + 1)
      with ⟨b, i2⟩
    rw [hmr] at h
    cases b with
    | false => exact ih L rand i2 p i' hL h
    | true =>
      obtain ⟨hp, hi⟩ : pyGetrandbits L (rand i) ||| (1 <<< (L - 1) ||| 1) = p ∧ i2 = i' := by
        simpa using h
      subst hp
      subst hi
      have hshift : (1 : Nat) <<< (L - 1) = 2 ^ (L - 1) := by
        rw [Nat.shiftLeft_eq, one_mul]
      have hv : pyGetrandbits L (rand i) < 2 ^ L := Nat.mod_lt _ (Nat.two_pow_pos L)
      have hmask : (1 <<< (L - 1) ||| 1) < 2 ^ L := by
        rw [hshift]
        refine Nat.or_lt_two_pow ?_ ?_
        · exact Nat.pow_lt_pow_right (by norm_num) (by omega)
        · exact Nat.one_lt_two_pow_iff.mpr (by omega)
      refine ⟨?_, Nat.or_lt_two_pow hv hmask, ?_, ⟨i + 1, by rw [hmr]⟩⟩
      · apply Nat.testBit_implies_ge
        rw [Nat.testBit_or, Nat.testBit_or, hshift, Nat.testBit_two_pow_self]
        simp
      · have hbit : (pyGetrandbits L (rand i) ||| (1 <<< (L - 1) ||| 1)).testBit 0 = true := by
          rw [Nat.testBit_or, Nat.testBit_or]
          have h1 : Nat.testBit 1 0 = true := rfl
          rw [h1]
          simp
        rw [Nat.testBit_zero] at hbit
        exact of_decide_eq_true hbit

/-- Claim C9: for every bit length `L ≥ 2`, every fuel bound and every
draw stream, a value returned by `generate_prime_number` is odd, has
exactly `L` bits (top bit set), and was accepted by the 128-round
Miller-Rabin tester on the stream's bases. -/
theorem claim9_generate_prime :
    ∀ (L fuel : Nat) (rand : Nat → Nat) (i p i' : Nat), 2 ≤ L →
      generate_prime_number L fuel rand i = some (p, i') →
      2 ^ (L - 1) ≤ p ∧ p < 2 ^ L ∧ p % 2 = 1 ∧ ∃ j, (is_prime p 128 rand j).1 = true :=
  fun L fuel rand i p i' hL h => generate_prime_spec fuel L rand i p i' (by omega) h

set_option maxRecDepth 100000 in
/-- Witness for C9: with the stream `randC9`, the generator returns 1039
(an 11-bit odd Miller-Rabin-accepted value) at draw index 129. -/
theorem claim9_witness :
    2 ^ 10 ≤ 1039 ∧ 1039 < 2 ^ 11 ∧ 1039 % 2 = 1 ∧
      ∃ j, (is_prime 1039 128 randC9 j).1 = true :=
  claim9_generate_prime 11 10 randC9 0 1039 129 (by norm_num) (by decide)

theorem pickE_spec : ∀ (fuel t : Nat) (rand : Nat → Nat) (i e i' : Nat),
    pickE t fuel rand i = some (e, i') →
    2 ^ 16 ≤ e ∧ e < 2 ^ 17 ∧ gcd e t = 1 := by
  intro fuel
  induction fuel with
  | zero =>
    intro t rand i e i' h
    exact absurd h (by simp [pickE])
  | succ fuel ih =>
    intro t rand i e i' h
    simp only [pickE] at h
    by_cases hg : gcd (pyRandrange (2 ^ 16) (2 ^ 17) (rand i)) t = 1
    · rw [if_pos hg] at h
      obtain ⟨he, hi⟩ : pyRandrange (2 ^ 16) (2 ^ 17) (rand i) = e ∧ i + 1 = i' := by
        simpa using h
      subst he
      subst hi
      refine ⟨Nat.le_add_right _ _, ?_, hg⟩
      have := Nat.mod_lt (rand i) (show 0 < 2 ^ 17 - 2 ^ 16 by norm_num)
      simp only [pyRandrange]
      omega
    · rw [if_neg hg] at h
      exact ih t rand (i + 1) e i' h

/-- Claim C3 (amended): every key pair returned by `generate_keys`
satisfies `N = p * q` for two distinct values `p ≠ q`, each of exactly
`key_length / 2` bits, odd, and accepted by the 128-round Miller-Rabin
tester (so prime except with negligible probability, though adversarial
draws can slip a composite through — see the counterexample); the public
exponent lies in `[2^16, 2^17)` and is coprime to the totient
`lcm (p-1) (q-1)`; and `(E * D) mod totient = 1`. -/
theorem claim3_generate_keys_spec :
    ∀ (fuel key_length : Nat) (rand : Nat → Nat) (i : Nat) (kp : RSAKeyPair) (i' : Nat),
      4 ≤ key_length →
      generate_keys key_length fuel rand i = some (.ok (kp, i')) →
      ∃ p q : Nat,
        kp.public_key.N = p * q ∧ p ≠ q ∧
        (2 ^ (key_length / 2 - 1) ≤ p ∧ p < 2 ^ (key_length / 2) ∧ p % 2 = 1 ∧
          ∃ j, (is_prime p 128 rand j).1 = true) ∧
        (2 ^ (key_length / 2 - 1) ≤ q ∧ q < 2 ^ (key_length / 2) ∧ q % 2 = 1 ∧
          ∃ j, (is_prime q 128 rand j).1 = true) ∧
        2 ^ 16 ≤ kp.public_key.E ∧ kp.public_key.E < 2 ^ 17 ∧
        Nat.gcd kp.public_key.E (lcm (p - 1) (q - 1)) = 1 ∧
        kp.public_key.E * kp.private_key.D % lcm (p - 1) (q - 1) = 1 := by
  intro fuel
  induction fuel with
  | zero =>
    intro L rand i kp i' hL h
    exact absurd h (by simp [generate_keys])
  | succ fuel ih =>
    intro L rand i kp i' hL h
    simp only [generate_keys] at h
    rcases hp1 : generate_prime_number (L / 2) (fuel + 1) rand i with _ | ⟨p, i1⟩
    · simp only [hp1] at h
      exact Option.noConfusion h
    · simp only [hp1] at h
      rcases hq1 : generate_prime_number (L / 2) (fuel + 1) rand i1 with _ | ⟨q, i2⟩
      · simp only [hq1] at h
        exact Option.noConfusion h
      · simp only [hq1] at h
        by_cases hpq : p ≠ q
        · rw [if_pos hpq] at h
          rcases he : pickE (lcm (p - 1) (q - 1)) (fuel + 1) rand i2 with _ | ⟨e, i3⟩
          · simp only [he] at h
            exact Option.noConfusion h
          · simp only [he] at h
            obtain ⟨hbound1, hbound2, hgcd⟩ := pickE_spec (fuel + 1) _ rand i2 e i3 he
            obtain ⟨hple, hplt, hpodd, hpacc⟩ :=
              generate_prime_spec (fuel + 1) (L / 2) rand i p i1 (by omega) hp1
            obtain ⟨hqle, hqlt, hqodd, hqacc⟩ :=
              generate_prime_spec (fuel + 1) (L / 2) rand i1 q i2 (by omega) hq1
            have hL2 : 2 ≤ L / 2 := by omega
            have h2pow : 2 ≤ 2 ^ (L / 2 - 1) := by
              calc (2 : Nat) = 2 ^ 1 := rfl
                _ ≤ 2 ^ (L / 2 - 1) := Nat.pow_le_pow_right (by norm_num) (by omega)
            have hp3 : 3 ≤ p := by omega
            have hq3 : 3 ≤ q := by omega
            have htot : 1 < lcm (p - 1) (q - 1) := by
              rw [lcm_eq]
              have hpos : 0 < Nat.lcm (p - 1) (q - 1) := Nat.lcm_pos (by omega) (by omega)
              have := Nat.le_of_dvd hpos (Nat.dvd_lcm_left (p - 1) (q - 1))
              omega
            rw [gcd_eq] at hgcd
            have hgcd' : Nat.gcd (lcm (p - 1) (q - 1)) e = 1 := by
              rw [Nat.gcd_comm]
              exact hgcd
            obtain ⟨d, hd, hmod⟩ := modinv_ok e (lcm (p - 1) (q - 1)) hgcd' htot
            simp only [hd] at h
            have hinj := Except.ok.inj (Option.some.inj h)
            have hkp : kp = ⟨⟨p * q, e⟩, ⟨d⟩⟩ := (congrArg Prod.fst hinj).symm
            subst hkp
            exact ⟨p, q, rfl, hpq, ⟨hple, hplt, hpodd, hpacc⟩, ⟨hqle, hqlt, hqodd, hqacc⟩,
              hbound1, hbound2, hgcd, hmod⟩
        · rw [if_neg hpq] at h
          exact ih L rand i2 kp i' hL h

set_option maxRecDepth 100000 in
/-- Witness for C3 (amended): the concrete run under `randC3w` returning
the key pair `N = 1039 * 1151 = 1195889`, `E = 65537`, `D = 402323`. -/
theorem claim3_witness :
    ∃ p q : Nat,
      (1195889 : Nat) = p * q ∧ p ≠ q ∧
      (2 ^ 10 ≤ p ∧ p < 2 ^ 11 ∧ p % 2 = 1 ∧ ∃ j, (is_prime p 128 randC3w j).1 = true) ∧
      (2 ^ 10 ≤ q ∧ q < 2 ^ 11 ∧ q % 2 = 1 ∧ ∃ j, (is_prime q 128 randC3w j).1 = true) ∧
      2 ^ 16 ≤ 65537 ∧ (65537 : Nat) < 2 ^ 17 ∧
      Nat.gcd 65537 (lcm (p - 1) (q - 1)) = 1 ∧
      (65537 : Nat) * 402323 % lcm (p - 1) (q - 1) = 1 :=
  claim3_generate_keys_spec 10 22 randC3w 0 ⟨⟨1195889, 65537⟩, ⟨402323⟩⟩ 259
    (by norm_num) (by decide)

set_option maxRecDepth 100000 in
/-- Counterexample for C3 as stated: under the stream `randC3cex` every
Miller-Rabin base drawn for the first candidate is 2, so the composite
2047 = 23 * 89 is accepted; the returned modulus 2126833 = 23 * 89 * 1039
is not a product of two distinct primes at all. -/
theorem claim3_counterexample :
    generate_keys 22 10 randC3cex 0 = some (.ok (⟨⟨2126833, 65537⟩, ⟨336929⟩⟩, 259)) ∧
    ¬ ∃ p q : Nat, Nat.Prime p ∧ Nat.Prime q ∧ p ≠ q ∧ 2126833 = p * q := by
  constructor
  · decide
  · rintro ⟨p, q, hp, hq, hne, hN⟩
    have h23 : Nat.Prime 23 := by norm_num
    have hdvd : (23 : Nat) ∣ p * q := by
      rw [← hN]
      exact ⟨92471, by norm_num⟩
    rcases (Nat.Prime.dvd_mul h23).mp hdvd with h | h
    · have hp23 : p = 23 := ((Nat.prime_dvd_prime_iff_eq h23 hp).mp h).symm
      subst hp23
      have hq' : q = 92471 := by omega
      subst hq'
      exact absurd hq (by norm_num)
    · have hq23 : q = 23 := ((Nat.prime_dvd_prime_iff_eq h23 hq).mp h).symm
      subst hq23
      have hp' : p = 92471 := by omega
      subst hp'
      exact absurd hp (by norm_num)

end RSAChat
